import Mathlib

/-!
Shallow embedding of the GeoMap widget logic from
`orangecontrib/text/widgets/owgeomap.py` (module `owgeomap`).

Strings are modelled as lists of characters (`Str`); Python `None` cells
become `Option Str`; the aggregation dictionary (`defaultdict(int)`) becomes
a total function `Str → Nat` defaulting to zero; the country-code maps
(imported from `country_codes`, not part of the sources here) are passed as
parameters: an inverse display-name-to-code map `Str → Option Str` and code
sets `Finset Str`.
-/

abbrev Str := List Char

/-- Character class of the token regex `CC_NAMES = [\w\s.\-]+`: word
characters (letters, digits, underscore), whitespace, dot and hyphen.
ASCII-faithful rendering of the Python character classes. -/
def isCCChar (c : Char) : Bool :=
  c.isAlphanum || c = '_' || c.isWhitespace || c = '.' || c = '-'

/-- Whitespace test used by Python `str.strip()`. -/
def isSpace (c : Char) : Bool := c.isWhitespace

/-- Accumulating scanner behind `CC_NAMES.findall`: collects maximal runs of
`isCCChar` characters; `acc` holds the current run, reversed. -/
def findallAux : List Char → List Char → List Str
  | [], acc => if acc = [] then [] else [acc.reverse]
  | c :: rest, acc =>
    if isCCChar c then findallAux rest (c :: acc)
    else if acc = [] then findallAux rest []
    else acc.reverse :: findallAux rest []

/-- `CC_NAMES.findall s`: the maximal nonempty runs of characters of the
class `[\w\s.\-]`, in order. -/
def ccFindall (s : Str) : List Str := findallAux s []

/-- Python `str.lower()`, per character. -/
def lower (s : Str) : Str := s.map Char.toLower

/-- Python `str.strip()`: drop leading and trailing whitespace. -/
def strip (s : Str) : Str :=
  ((s.dropWhile isSpace).reverse.dropWhile isSpace).reverse

/-- Per-cell extraction of `OWGeoMap._iter_locations`: a cell longer than
three characters is lower-cased, tokenized by `CC_NAMES.findall` and each
token stripped; a shorter cell is yielded whole, unchanged (`yield (i, )`). -/
def extractLocations (i : Str) : List Str :=
  if 3 < i.length then (ccFindall (lower i)).map strip else [i]

/-- `OWGeoMap._iter_locations`: `none` cells (Python `None`) are skipped,
every other cell yields one row of locations through `extractLocations`. -/
def iter_locations (cells : List (Option Str)) : List (List Str) :=
  cells.filterMap (fun c => c.map extractLocations)

/-- The set of all distinct location tokens across rows, as built by
`on_attr_change`: `set(chain.from_iterable(self._iter_locations()))`. -/
def allTokens (cells : List (Option Str)) : Finset Str :=
  (iter_locations cells).flatten.toFinset

/-- The three map variants of class `Map` (`world_mill_en`, `europe_mill_en`,
`us_aea_en`). -/
inductive MapCode where
  | world
  | europe
  | usa
deriving DecidableEq

/-- Map auto-selection of `OWGeoMap.on_attr_change`: USA when
`0 == len(values - SET_CC_USA)`, else Europe when
`0 == len(values - SET_CC_EUROPE)`, else World. -/
def auto_select_map (setUSA setEurope : Finset Str) (values : Finset Str) :
    MapCode :=
  if values \ setUSA = ∅ then MapCode.usa
  else if values \ setEurope = ∅ then MapCode.europe
  else MapCode.world

/-- `inv_cc_map.get(loc, loc)`: resolve a display name to its code through
the inverse map, else keep the token itself. -/
def resolve (inv : Str → Option Str) (loc : Str) : Str := (inv loc).getD loc

/-- The deduplicated set of resolved codes of one row:
`keys = set(inv_cc_map.get(loc, loc) for loc in locations)`. -/
def rowKeys (inv : Str → Option Str) (locations : List Str) : Finset Str :=
  (locations.map (resolve inv)).toFinset

/-- Inner loop of `OWGeoMap.on_map_change`:
`for key in keys: if key in cc_map: data[key] += 1`. -/
def innerLoop (cc : Finset Str) (keys : List Str) (counts : Str → Nat) :
    Str → Nat :=
  keys.foldl (fun cnts key =>
    if key ∈ cc then Function.update cnts key (cnts key + 1) else cnts) counts

/-- One iteration of the row loop of `OWGeoMap.on_map_change`: the resolved
keys of the row, deduplicated (Python builds a `set`; iteration order is
immaterial, see `innerLoop_spec`), then counted against the code map. -/
def rowAgg (inv : Str → Option Str) (cc : Finset Str) (counts : Str → Nat)
    (locations : List Str) : Str → Nat :=
  innerLoop cc ((locations.map (resolve inv)).dedup) counts

/-- The per-code counts computed by `OWGeoMap.on_map_change` (the `data`
defaultdict), as a total function defaulting to zero. -/
def on_map_change_counts (inv : Str → Option Str) (cc : Finset Str)
    (rows : List (List Str)) : Str → Nat :=
  rows.foldl (rowAgg inv cc) (fun _ => 0)

/-- Whether one row increments a given code: the code is among the resolved
deduplicated keys of the row and belongs to the active code map. -/
def rowContributes (inv : Str → Option Str) (cc : Finset Str) (code : Str)
    (locations : List Str) : Bool :=
  decide (code ∈ rowKeys inv locations) && decide (code ∈ cc)

/-- A column variable of the host data model: its name and whether it is a
discrete (categorical) attribute. -/
structure Attr where
  name : Str
  is_discrete : Bool
deriving DecidableEq

/-- The part of the dataset `region_selected` touches: its domain, a list of
attributes addressable by name. -/
structure Dataset where
  domain : List Attr
deriving DecidableEq

/-- `self.data.domain[self.selected_attr]`: lookup of an attribute by name;
`none` models the `KeyError` the host data model raises when absent. -/
def findAttrByName (domain : List Attr) (nm : Str) : Option Attr :=
  domain.find? (fun a => decide (a.name = nm))

/-- Widget state touched by `region_selected`: the persisted `regions`
setting, the loaded data, and the selected attribute name. -/
structure GeoState where
  regions : List Str
  data : Option Dataset
  selected_attr : Str
deriving DecidableEq

/-- Python string split on the comma separator: splits at every comma,
keeping empty pieces. -/
def splitComma : Str → List Str
  | [] => [[]]
  | c :: rest =>
    if c = ',' then [] :: splitComma rest
    else
      match splitComma rest with
      | [] => [[c]]
      | t :: ts => (c :: t) :: ts

/-- What `region_selected` does on the Corpus output port: sends `None`,
sends a filtered subset (recording the dataset, the attribute filtered on and
the region list the regex alternation is built from), returns without
sending, or raises from the domain lookup. -/
inductive RSOutcome where
  | sentNone
  | sentFiltered (d : Dataset) (a : Attr) (regions : List Str)
  | noSend
  | raised
deriving DecidableEq

/-- `OWGeoMap.region_selected`: on an empty argument the stored selection is
cleared; when the argument is empty or no data is loaded, a null Corpus is
sent; otherwise the comma-split region list is stored and, unless the
selected attribute is discrete (in which case nothing is sent), the
regex-filtered subset is sent. -/
def region_selected (st : GeoState) (arg : Str) : GeoState × RSOutcome :=
  let st1 := if arg = [] then { st with regions := [] } else st
  match st1.data, arg with
  | none, _ => (st1, RSOutcome.sentNone)
  | some _, [] => (st1, RSOutcome.sentNone)
  | some d, c :: cs =>
    let st2 := { st1 with regions := splitComma (c :: cs) }
    match findAttrByName d.domain st2.selected_attr with
    | none => (st2, RSOutcome.raised)
    | some a =>
      if a.is_discrete then (st2, RSOutcome.noSend)
      else (st2, RSOutcome.sentFiltered d a st2.regions)

/-- Modelled from the spec: the `country_codes` module (`INV_CC_WORLD`) is
imported by the widget but is not among the sources. The spec describes each
region map as providing a display-name-to-code inverse map; this is a small
faithful instance of the world inverse map (the demo data of the widget
itself uses the display name Slovenia). -/
def inv_cc_world_m : Str → Option Str := fun s =>
  if s = ("slovenia").toList then some (("SI").toList) else none

/-- Modelled from the spec: fragment of the canonical code set of the world
map (`CC_WORLD` keys), absent from the sources. -/
def cc_world_m : Finset Str := {("SI").toList, ("US").toList}

/-- Modelled from the spec: fragment of the canonical code set of the Europe
map (`CC_EUROPE` keys), absent from the sources. -/
def cc_europe_m : Finset Str := {("SI").toList}

/-- Modelled from the spec: fragment of the canonical code set of the USA map
(`CC_USA` keys), absent from the sources. -/
def cc_usa_m : Finset Str := {("NY").toList}

/-- Modelled from the spec: fragment of the membership-test code set
`SET_CC_USA`, absent from the sources. -/
def set_cc_usa_m : Finset Str := {("NY").toList}

/-- Modelled from the spec: fragment of the membership-test code set
`SET_CC_EUROPE`, absent from the sources. -/
def set_cc_europe_m : Finset Str := {("SI").toList}

/-- Concrete attribute used by witness instantiations: a discrete column
named country. -/
def a0 : Attr := ⟨("country").toList, true⟩

/-- Concrete dataset used by witness instantiations. -/
def d0 : Dataset := ⟨[a0]⟩

/-- Concrete widget state with loaded data and a discrete selected column. -/
def st5 : GeoState := ⟨[], some d0, ("country").toList⟩

/-- Concrete widget state with no loaded data and a nonempty stored
selection. -/
def st10 : GeoState := ⟨[("DE").toList], none, []⟩

/-- The inner loop of the aggregation adds one to the counter of a code
exactly when the code is among the keys of the row and in the active code
map; the result depends only on key membership, so the Python set iteration
order is immaterial. -/
lemma innerLoop_spec (cc : Finset Str) :
    ∀ (keys : List Str), keys.Nodup → ∀ (counts : Str → Nat) (code : Str),
      innerLoop cc keys counts code
        = counts code + (if code ∈ keys ∧ code ∈ cc then 1 else 0) := by
  intro keys
  induction keys with
  | nil => intro _ counts code; simp [innerLoop]
  | cons k ks ih =>
    intro hnd counts code
    rcases List.nodup_cons.mp hnd with ⟨hk, hnd2⟩
    have step : innerLoop cc (k :: ks) counts
        = innerLoop cc ks
            (if k ∈ cc then Function.update counts k (counts k + 1) else counts) := by
      simp [innerLoop]
    rw [step, ih hnd2]
    by_cases hck : code = k
    · subst hck
      by_cases hc : code ∈ cc
      · simp [hc, Function.update_same, hk]
      · simp [hc, hk]
    · by_cases hc : k ∈ cc
      · simp [hc, Function.update_noteq hck, List.mem_cons, hck]
      · simp [hc, List.mem_cons, hck]

/-- One aggregation row adds one to the counter of a code exactly when the
row contributes that code. -/
lemma rowAgg_spec (inv : Str → Option Str) (cc : Finset Str)
    (counts : Str → Nat) (locations : List Str) (code : Str) :
    rowAgg inv cc counts locations code
      = counts code + (if rowContributes inv cc code locations then 1 else 0) := by
  have h := innerLoop_spec cc ((locations.map (resolve inv)).dedup)
    (List.nodup_dedup _) counts code
  rw [rowAgg, h]
  have hmem : code ∈ (locations.map (resolve inv)).dedup ↔
      code ∈ rowKeys inv locations := by
    simp [rowKeys, List.mem_dedup, List.mem_toFinset]
  by_cases h1 : code ∈ rowKeys inv locations <;> by_cases h2 : code ∈ cc <;>
    simp [rowContributes, hmem, h1, h2]

/-- Folding the aggregation over rows starting from arbitrary counts adds the
number of contributing rows. -/
lemma counts_spec_aux (inv : Str → Option Str) (cc : Finset Str) :
    ∀ (rows : List (List Str)) (counts : Str → Nat) (code : Str),
      List.foldl (rowAgg inv cc) counts rows code
        = counts code + rows.countP (rowContributes inv cc code) := by
  intro rows
  induction rows with
  | nil => intro counts code; simp
  | cons r rs ih =>
    intro counts code
    rw [List.foldl_cons, ih, rowAgg_spec, List.countP_cons]
    by_cases h : rowContributes inv cc code r
    all_goals simp [h]
    all_goals omega

/-- The count of a code equals the number of rows contributing it. -/
lemma counts_spec (inv : Str → Option Str) (cc : Finset Str)
    (rows : List (List Str)) (code : Str) :
    on_map_change_counts inv cc rows code
      = rows.countP (rowContributes inv cc code) := by
  have h := counts_spec_aux inv cc rows (fun _ => 0) code
  simpa [on_map_change_counts] using h

/-- Claim C1: for every row, the aggregation of `on_map_change` resolves the
tokens through the inverse map (falling back to the token itself),
deduplicates the resolved codes per row, and increments the counter of each
resulting code lying in the active code map by exactly one — the count of a
code is the number of rows contributing it, so every row contributes at most
1 to any count. -/
theorem owgeomap_C1_row_counts (inv : Str → Option Str) (cc : Finset Str)
    (rows : List (List Str)) (code : Str) :
    on_map_change_counts inv cc rows code
        = rows.countP (rowContributes inv cc code)
      ∧ on_map_change_counts inv cc rows code ≤ rows.length := by
  refine ⟨counts_spec inv cc rows code, ?_⟩
  rw [counts_spec]
  exact List.countP_le_length _

/-- Claim C8: aggregation is deterministic — the same inverse map, the same
code set and the same extracted rows produce equal code-to-count mappings. -/
theorem owgeomap_C8_deterministic (inv1 inv2 : Str → Option Str)
    (cc1 cc2 : Finset Str) (rows1 rows2 : List (List Str))
    (h1 : inv1 = inv2) (h2 : cc1 = cc2) (h3 : rows1 = rows2) :
    on_map_change_counts inv1 cc1 rows1 = on_map_change_counts inv2 cc2 rows2 := by
  subst h1; subst h2; subst h3; rfl

/-- Witness for C8 at a concrete map and dataset. -/
theorem owgeomap_C8_witness :
    on_map_change_counts inv_cc_world_m cc_world_m [[("slovenia").toList]]
      = on_map_change_counts inv_cc_world_m cc_world_m [[("slovenia").toList]] :=
  owgeomap_C8_deterministic inv_cc_world_m inv_cc_world_m cc_world_m cc_world_m
    [[("slovenia").toList]] [[("slovenia").toList]] rfl rfl rfl

/-- Claim C2: map auto-selection picks USA exactly when every token is a
valid USA code, Europe exactly when not every token is a USA code but every
token is a Europe code, and World exactly when neither subset test holds;
being a total function with this three-way characterization, the decision is
total and deterministic with precedence USA over Europe over World. -/
theorem owgeomap_C2_auto_select (sU sE values : Finset Str) :
    (auto_select_map sU sE values = MapCode.usa ↔ values ⊆ sU)
    ∧ (auto_select_map sU sE values = MapCode.europe ↔
        ¬ values ⊆ sU ∧ values ⊆ sE)
    ∧ (auto_select_map sU sE values = MapCode.world ↔
        ¬ values ⊆ sU ∧ ¬ values ⊆ sE) := by
  unfold auto_select_map
  by_cases h1 : values \ sU = ∅
  · rw [if_pos h1]
    rw [Finset.sdiff_eq_empty_iff_subset] at h1
    simp [h1]
  · rw [if_neg h1]
    rw [Finset.sdiff_eq_empty_iff_subset] at h1
    by_cases h2 : values \ sE = ∅
    · rw [if_pos h2]
      rw [Finset.sdiff_eq_empty_iff_subset] at h2
      simp [h1, h2]
    · rw [if_neg h2]
      rw [Finset.sdiff_eq_empty_iff_subset] at h2
      simp [h1, h2]

/-- A column whose cells are all missing yields no location rows. -/
lemma iter_locations_all_none :
    ∀ (cells : List (Option Str)), (∀ c ∈ cells, c = none) →
      iter_locations cells = [] := by
  intro cells
  induction cells with
  | nil => intro _; rfl
  | cons c cs ih =>
    intro h
    have hc : c = none := h c (List.mem_cons_self c cs)
    subst hc
    simpa [iter_locations] using ih (fun x hx => h x (List.mem_cons_of_mem _ hx))

/-- Claim C9: when every cell is missing, the set of location tokens is
empty, and map auto-selection then chooses the USA map — the subset test
against the USA code set holds vacuously and USA has highest precedence. -/
theorem owgeomap_C9_empty_tokens (sU sE : Finset Str)
    (cells : List (Option Str)) (h : ∀ c ∈ cells, c = none) :
    allTokens cells = ∅
    ∧ auto_select_map sU sE (allTokens cells) = MapCode.usa := by
  have hiter := iter_locations_all_none cells h
  have htok : allTokens cells = ∅ := by simp [allTokens, hiter]
  refine ⟨htok, ?_⟩
  rw [htok]
  simp [auto_select_map, Finset.empty_sdiff]

/-- Witness for C9 on a one-cell column holding a missing value. -/
theorem owgeomap_C9_witness :
    allTokens [(none : Option Str)] = ∅
    ∧ auto_select_map set_cc_usa_m set_cc_europe_m
        (allTokens [(none : Option Str)]) = MapCode.usa :=
  owgeomap_C9_empty_tokens set_cc_usa_m set_cc_europe_m [none] (by decide)

/-- Claim C4: for every widget state, calling the region-selection callback
with the empty string clears the stored selection (sets it to the empty
list) and sends a null output on the Corpus port. -/
theorem owgeomap_C4_clear (st : GeoState) :
    region_selected st [] = ({ st with regions := [] }, RSOutcome.sentNone) := by
  cases h : st.data <;> simp [region_selected, h]

/-- Claim C5: when data is loaded and the selected column is a discrete
attribute, a non-empty region-selection argument stores the comma-split
selection and returns without sending anything and without raising. -/
theorem owgeomap_C5_discrete (st : GeoState) (arg : Str) (d : Dataset)
    (a : Attr) (h1 : arg ≠ []) (h2 : st.data = some d)
    (h3 : findAttrByName d.domain st.selected_attr = some a)
    (h4 : a.is_discrete = true) :
    (region_selected st arg).2 = RSOutcome.noSend
    ∧ (region_selected st arg).1.regions = splitComma arg := by
  cases arg with
  | nil => exact absurd rfl h1
  | cons c cs => simp [region_selected, h2, h3, h4]

/-- Witness for C5 on a concrete state with a discrete country column. -/
theorem owgeomap_C5_witness :
    (region_selected st5 (("US,SI").toList)).2 = RSOutcome.noSend
    ∧ (region_selected st5 (("US,SI").toList)).1.regions
        = splitComma (("US,SI").toList) :=
  owgeomap_C5_discrete st5 (("US,SI").toList) d0 a0 (by decide) rfl (by decide) rfl

/-- Claim C10: a non-empty region-selection argument while no data is loaded
sends a null output on the Corpus port and leaves the state — in particular
the stored region list — unchanged. -/
theorem owgeomap_C10_no_data (st : GeoState) (arg : Str)
    (h1 : st.data = none) (h2 : arg ≠ []) :
    region_selected st arg = (st, RSOutcome.sentNone) := by
  cases arg with
  | nil => exact absurd rfl h2
  | cons c cs => simp [region_selected, h1]

/-- Witness for C10 on a concrete state without data and with a previously
stored selection. -/
theorem owgeomap_C10_witness :
    region_selected st10 (("US").toList) = (st10, RSOutcome.sentNone) :=
  owgeomap_C10_no_data st10 (("US").toList) rfl (by decide)

/-- Prepending a token that the inverse map does not know and that is not in
the active code set leaves the contribution of a row unchanged. -/
lemma rowContributes_cons (inv : Str → Option Str) (cc : Finset Str)
    (code loc : Str) (locs : List Str) (h1 : inv loc = none) (h2 : loc ∉ cc) :
    rowContributes inv cc code (loc :: locs)
      = rowContributes inv cc code locs := by
  by_cases hck : code = loc
  · subst hck
    simp [rowContributes, h2]
  · simp [rowContributes, rowKeys, resolve, h1, List.mem_cons, hck]

/-- Claim C6, amended: a location token that the active inverse
display-name-to-code map does not resolve and that lies outside the active
code set never contributes — its presence in a row changes no counter. The
original claim, quantifying only over the three canonical code sets, fails
because a display-name token resolves to a code (see `owgeomap_C6_cex`). -/
theorem owgeomap_C6_amended (inv : Str → Option Str) (cc : Finset Str)
    (rows1 rows2 : List (List Str)) (locs : List Str) (loc code : Str)
    (h1 : inv loc = none) (h2 : loc ∉ cc) :
    on_map_change_counts inv cc (rows1 ++ (loc :: locs) :: rows2) code
      = on_map_change_counts inv cc (rows1 ++ locs :: rows2) code := by
  rw [counts_spec, counts_spec, List.countP_append, List.countP_append,
    List.countP_cons, List.countP_cons,
    rowContributes_cons inv cc code loc locs h1 h2]

/-- Counterexample to C6 as stated: the display-name token slovenia is in
none of the three canonical code sets, yet a row holding it increments the
counter of the code SI through the inverse map. -/
theorem owgeomap_C6_cex :
    ("slovenia").toList ∉ cc_world_m ∪ cc_europe_m ∪ cc_usa_m
    ∧ on_map_change_counts inv_cc_world_m cc_world_m
        [[("slovenia").toList]] (("SI").toList) = 1
    ∧ on_map_change_counts inv_cc_world_m cc_world_m [] (("SI").toList) = 0 := by
  decide

/-- Witness for the amended C6 on a concrete unknown token. -/
theorem owgeomap_C6_amended_witness :
    on_map_change_counts inv_cc_world_m cc_world_m
        [(("xx").toList) :: [("SI").toList]] (("SI").toList)
      = on_map_change_counts inv_cc_world_m cc_world_m
          [[("SI").toList]] (("SI").toList) :=
  owgeomap_C6_amended inv_cc_world_m cc_world_m [] [] [("SI").toList]
    (("xx").toList) (("SI").toList) (by decide) (by decide)

/-- A row holding only the empty-string token contributes to no counter when
the empty string resolves to itself and is not a valid code. -/
lemma rowContributes_empty_cell (inv : Str → Option Str) (cc : Finset Str)
    (code : Str) (h1 : inv [] = none) (h2 : ([] : Str) ∉ cc) :
    rowContributes inv cc code [([] : Str)] = false := by
  by_cases hc : code = ([] : Str)
  · subst hc
    simp [rowContributes, h2]
  · simp [rowContributes, rowKeys, resolve, h1, hc]

/-- Location extraction distributes over concatenation of cell lists. -/
lemma iter_locations_append (cells1 cells2 : List (Option Str)) :
    iter_locations (cells1 ++ cells2)
      = iter_locations cells1 ++ iter_locations cells2 := by
  simp [iter_locations, List.filterMap_append]

/-- Claim C7, amended: missing (None) cells are skipped and contribute
nothing; an empty-string cell is NOT skipped — it yields the single
empty-string token, which contributes nothing to aggregation when the empty
string is not a valid code, but does enter the token set used by map
auto-selection (see `owgeomap_C7_cex`). -/
theorem owgeomap_C7_amended (cells1 cells2 : List (Option Str))
    (inv : Str → Option Str) (cc : Finset Str) (code : Str)
    (h1 : inv [] = none) (h2 : ([] : Str) ∉ cc) :
    iter_locations (cells1 ++ none :: cells2) = iter_locations (cells1 ++ cells2)
    ∧ extractLocations [] = [([] : Str)]
    ∧ on_map_change_counts inv cc
        (iter_locations (cells1 ++ some ([] : Str) :: cells2)) code
      = on_map_change_counts inv cc (iter_locations (cells1 ++ cells2)) code := by
  refine ⟨?_, rfl, ?_⟩
  · simp [iter_locations, List.filterMap_append, List.filterMap_cons]
  · rw [iter_locations_append, iter_locations_append]
    have hmid : iter_locations (some ([] : Str) :: cells2)
        = [([] : Str)] :: iter_locations cells2 := by
      simp [iter_locations, List.filterMap_cons, extractLocations]
    rw [hmid, counts_spec, counts_spec, List.countP_append, List.countP_append,
      List.countP_cons, rowContributes_empty_cell inv cc code h1 h2]
    simp

/-- Counterexample to C7 as stated: an empty-string cell yields a token, and
its presence flips map auto-selection from USA to World on an otherwise
all-USA column. -/
theorem owgeomap_C7_cex :
    iter_locations [some ([] : Str)] ≠ []
    ∧ auto_select_map set_cc_usa_m set_cc_europe_m
        (allTokens [some (("NY").toList), some ([] : Str)]) = MapCode.world
    ∧ auto_select_map set_cc_usa_m set_cc_europe_m
        (allTokens [some (("NY").toList)]) = MapCode.usa := by
  decide

/-- Witness for the amended C7 on concrete cells. -/
theorem owgeomap_C7_amended_witness :
    iter_locations ([] ++ none :: [some (("SI").toList)])
      = iter_locations ([] ++ [some (("SI").toList)])
    ∧ extractLocations [] = [([] : Str)]
    ∧ on_map_change_counts inv_cc_world_m cc_world_m
        (iter_locations ([] ++ some ([] : Str) :: [some (("SI").toList)]))
        (("SI").toList)
      = on_map_change_counts inv_cc_world_m cc_world_m
          (iter_locations ([] ++ [some (("SI").toList)])) (("SI").toList) :=
  owgeomap_C7_amended [] [some (("SI").toList)] inv_cc_world_m cc_world_m
    (("SI").toList) (by decide) (by decide)

/-- Every token produced by the findall scanner is a nonempty run of
characters of the regex character class. -/
lemma findallAux_chars :
    ∀ (s acc : List Char), (∀ c ∈ acc, isCCChar c = true) →
      ∀ t ∈ findallAux s acc, t ≠ [] ∧ ∀ c ∈ t, isCCChar c = true := by
  intro s
  induction s with
  | nil =>
    intro acc hacc t ht
    by_cases h : acc = []
    · subst h
      simp [findallAux] at ht
    · simp only [findallAux, if_neg h, List.mem_singleton] at ht
      subst ht
      refine ⟨by simpa using h, ?_⟩
      intro c hc
      exact hacc c (List.mem_reverse.mp hc)
  | cons a s ih =>
    intro acc hacc t ht
    by_cases hca : isCCChar a = true
    · simp only [findallAux, if_pos hca] at ht
      refine ih (a :: acc) ?_ t ht
      intro c hc
      rcases List.mem_cons.mp hc with h | h
      · subst h; exact hca
      · exact hacc c h
    · by_cases h : acc = []
      · subst h
        simp only [findallAux, if_neg hca, if_pos rfl] at ht
        exact ih [] (by intro c hc; simp at hc) t ht
      · simp only [findallAux, if_neg hca, if_neg h, List.mem_cons] at ht
        rcases ht with h1 | h1
        · subst h1
          refine ⟨by simpa using h, ?_⟩
          intro c hc
          exact hacc c (List.mem_reverse.mp hc)
        · exact ih [] (by intro c hc; simp at hc) t h1

/-- Every match of the token regex is nonempty and consists of characters of
its character class. -/
lemma ccFindall_chars (s : Str) :
    ∀ t ∈ ccFindall s, t ≠ [] ∧ ∀ c ∈ t, isCCChar c = true :=
  findallAux_chars s [] (by intro c hc; simp at hc)

/-- Stripping only removes characters: every character of the stripped string
occurs in the original. -/
lemma strip_subset (t : Str) : ∀ c ∈ strip t, c ∈ t := by
  intro c hc
  simp only [strip, List.mem_reverse] at hc
  have h1 : c ∈ (t.dropWhile isSpace).reverse :=
    (List.dropWhile_suffix isSpace).subset hc
  rw [List.mem_reverse] at h1
  exact (List.dropWhile_suffix isSpace).subset h1

/-- Claim C3, amended: for a non-missing cell longer than three characters,
extraction yields the matches of the regex on the lower-cased value, each
stripped of surrounding whitespace (every character of every token belonging
to the regex class); for a cell of at most three characters it yields the
whole value UNCHANGED — not trimmed — as a single literal token (see
`owgeomap_C3_cex`). -/
theorem owgeomap_C3_amended (i : Str) :
    (i.length ≤ 3 → extractLocations i = [i])
    ∧ (3 < i.length →
        extractLocations i = (ccFindall (lower i)).map strip
        ∧ ∀ t ∈ extractLocations i, ∀ c ∈ t, isCCChar c = true) := by
  constructor
  · intro h
    have h2 : ¬ 3 < i.length := by omega
    simp [extractLocations, h2]
  · intro h
    have he : extractLocations i = (ccFindall (lower i)).map strip := by
      simp [extractLocations, h]
    refine ⟨he, ?_⟩
    intro t ht c hc
    rw [he] at ht
    rcases List.mem_map.mp ht with ⟨u, hu, rfl⟩
    exact (ccFindall_chars (lower i) u hu).2 c (strip_subset u c hc)

/-- Counterexample to C3 as stated: a short cell consisting of a space and a
letter is yielded whole, with its leading space, not trimmed. -/
theorem owgeomap_C3_cex :
    extractLocations ((" a").toList) = [(" a").toList]
    ∧ extractLocations ((" a").toList) ≠ [strip ((" a").toList)] := by
  decide

/-- Witness for the amended C3 on one short and one long concrete cell. -/
theorem owgeomap_C3_amended_witness :
    extractLocations (("us").toList) = [("us").toList]
    ∧ extractLocations (("new york").toList)
        = (ccFindall (lower (("new york").toList))).map strip :=
  ⟨(owgeomap_C3_amended (("us").toList)).1 (by decide),
   ((owgeomap_C3_amended (("new york").toList)).2 (by decide)).1⟩
